import Mathlib

/-!
Shallow embedding of the `percolate` crate's core, for checking its
natural-language specification.

The embedding covers:
* the `Modular<MODULE>` wraparound index arithmetic of
  `src/stream/peek_stream.rs`;
* the `PeekStream` ring-buffered lookahead stream adapter
  (`poll_next`, `size_hint`, `peek_n` / `peek_n_mut`, `next_if`);
* the scoped async handle `PinHandleMut` with its run-once drop action
  (`src/handles.rs`);
* the blocking adapters `FusedBlockingMut` (by value),
  `FusedRefBlockingMut` (by shared reference) and `FusedMutBlockingMut`
  (by mutable reference), with their single-shot futures and the
  `Clear…` drop actions;
* the async adapter `AsyncMut` with its inner-future slot.

Machine integers (`usize`) are modelled as `Nat`; the only place where
the 2^64 bound is observable in the claims is `PeekStream::size_hint`,
whose `usize::checked_add` on the upper bound and unchecked `usize`
addition on the lower bound are modelled explicitly against
`usizeMax`.  `MaybeUninit<Item>` buffer slots are modelled as
`Option Item`, with `none` standing for an uninitialized slot, so that
a read of an uninitialized slot (undefined behavior in the source) is
observable in the model.  Asynchronous control flow is modelled at the
"await already completed" level: `StreamExt::next().await` on the
underlying fused source is one call to `Source.next`, and futures are
explicit state machines polled step by step.
-/

/-- Result of one `poll` of a future or stream, after `core::task::Poll`. -/
inductive Poll (α : Type) where
  | ready (value : α)
  | pending
  deriving Repr, DecidableEq

/-- The underlying `Input: FusedStream` of a `PeekStream`, modelled as the
remaining items it will yield, together with its `is_terminated` flag and
its own `size_hint` report.  Pulling from an exhausted source yields `none`
and sets the terminated flag, as `futures_util`'s fused streams do. -/
structure Source (α : Type) where
  terminated : Bool
  hint : Nat × Option Nat
  items : List α
  deriving Repr, DecidableEq

/-- The `FusedStream::is_terminated` query of the source. -/
def Source.is_terminated (s : Source α) : Bool :=
  s.terminated

/-- One completed `StreamExt::next().await` on the source: yields the head
item, or `none` (and becomes terminated) when exhausted. -/
def Source.next (s : Source α) : Option α × Source α :=
  match s.items with
  | [] => (none, { s with terminated := true, items := [] })
  | x :: xs => (some x, { s with items := xs })

/-- The source's own `Stream::size_hint` report. -/
def Source.size_hint (s : Source α) : Nat × Option Nat :=
  s.hint

/-- `Modular::<MODULE>::add` from `peek_stream.rs`:
`(self.0 + rhs % MODULE) % MODULE` (the `checked_add` cannot overflow on
`Nat`). -/
def Modular.add (MODULE a rhs : Nat) : Nat :=
  (a + rhs % MODULE) % MODULE

/-- `Modular::<MODULE>::sub` from `peek_stream.rs`: forward distance from
`rhs` to `self`, never negative. -/
def Modular.sub (MODULE a rhs : Nat) : Nat :=
  if rhs ≤ a then a - rhs else MODULE - rhs + a

/-- `PeekStream<Input, CAPACITY>`: the underlying fused source, the
`[MaybeUninit<Item>; CAPACITY]` ring buffer (a slot is `none` while
uninitialized), the `start: Modular<CAPACITY>` index and the `len` count
of live buffered items. -/
structure PeekStream (α : Type) (CAPACITY : Nat) where
  input : Source α
  buffer : List (Option α)
  start : Nat
  len : Nat
  deriving Repr, DecidableEq

/-- `Stream::poll_next` for `PeekStream`: if `len > 0`, read the slot at
`start`, advance `start` by one via `Modular::add`, decrement `len`, and
return the read item; else delegate to the source's own advance
operation.  The slot read is returned as the `Option` content of the
slot; a live slot holds `some item`, matching the source's
`Poll::Ready(Some(item))`. -/
def PeekStream.poll_next (ps : PeekStream α C) : Poll (Option α) × PeekStream α C :=
  if 0 < ps.len then
    let i := ps.start
    (Poll.ready (ps.buffer.getD i none),
      { ps with start := Modular.add C ps.start 1, len := ps.len - 1 })
  else
    let (r, s) := ps.input.next
    (Poll.ready r, { ps with input := s })

/-- `StreamExt::next().await` on the `PeekStream` itself: the ready result
of `poll_next` (which never returns `pending` in this model, since the
modelled source answers immediately). -/
def PeekStream.next (ps : PeekStream α C) : Option α × PeekStream α C :=
  match ps.poll_next with
  | (Poll.ready r, ps') => (r, ps')
  | (Poll.pending, ps') => (none, ps')

/-- The largest `usize` value, `2^64 - 1` on the 64-bit targets the
crate is built for. -/
def usizeMax : Nat := 2 ^ 64 - 1

/-- `usize::checked_add`: `none` exactly on overflow past `usizeMax`. -/
def usizeCheckedAdd (a b : Nat) : Option Nat :=
  if a + b ≤ usizeMax then some (a + b) else none

/-- `usize::saturating_add`, the behavior the spec's wording ("saturating
on overflow") would require of the upper bound. -/
def usizeSaturatingAdd (a b : Nat) : Nat :=
  min (a + b) usizeMax

/-- `PeekStream::size_hint` from `peek_stream.rs`:
`(start + self.len, end.and_then(|end| end.checked_add(self.len)))`.
The lower bound is an unchecked `usize` addition: when it exceeds
`usize::MAX` the source's arithmetic is a program error (an
`attempt to add with overflow` panic under debug assertions, a
wrapped-around value in release builds), never the intended bound —
modelled as an explicit error so the overflowing path stays
observable.  The upper bound goes through `checked_add`. -/
def PeekStream.size_hint (ps : PeekStream α C) : Except String (Nat × Option Nat) :=
  let lo := (ps.input.size_hint).1
  let hi := (ps.input.size_hint).2
  if lo + ps.len ≤ usizeMax then
    .ok (lo + ps.len, hi.bind fun e => usizeCheckedAdd e ps.len)
  else
    .error "attempt to add with overflow"

/-- `FusedStream::is_terminated` for `PeekStream`:
`self.len == 0 && self.input.is_terminated()`. -/
def PeekStream.is_terminated (ps : PeekStream α C) : Bool :=
  ps.len == 0 && ps.input.is_terminated

/-- The `while *this.len < depth` pull loop of `PeekStream::peek_n_mut`,
translated with its remaining iteration count `depth - len` as the
structural recursion argument (`peekFill` below always passes exactly
that, so the fuel test `k = 0` coincides with the loop guard
`len ≥ depth`).  Each iteration first checks `input.is_terminated()`
(early `None` return), then pulls one item (`next().await?`: a `none`
pull also returns early with `None`), stores it at
`Modular::add(start, len)` and increments `len`.  Returns the final
state, whether the loop completed (`true`) or returned `None` early,
and the number of pulls performed on the source.
First, the body of one successful pull iteration: store the pulled item
`x` at the next free slot `Modular::add(start, len)`, increment `len`,
and continue with the advanced source `s`. -/
def peekFillPush (ps : PeekStream α C) (x : α) (s : Source α) : PeekStream α C :=
  { input := s,
    buffer := ps.buffer.set (Modular.add C ps.start ps.len) (some x),
    start := ps.start,
    len := ps.len + 1 }

/-- The pull loop itself (see `peekFillPush` above for one stored pull). -/
def peekFillGo (depth : Nat) : Nat → PeekStream α C → PeekStream α C × Bool × Nat
  | 0, ps => (ps, true, 0)
  | k + 1, ps =>
    if ps.input.is_terminated then
      (ps, false, 0)
    else
      match ps.input.next with
      | (none, s) => ({ ps with input := s }, false, 1)
      | (some x, s) =>
        let r := peekFillGo depth k (peekFillPush ps x s)
        (r.1, r.2.1, r.2.2 + 1)

/-- The pull loop of `PeekStream::peek_n_mut`, entered with the loop's
iteration budget `depth - len`. -/
def peekFill (ps : PeekStream α C) (depth : Nat) : PeekStream α C × Bool × Nat :=
  peekFillGo depth (depth - ps.len) ps

/-- Number of pulls `peek_n_mut` performs on the source (instrumentation
over `peekFill`; the loop is the only place `peek_n_mut` touches the
source). -/
def PeekStream.peekPulls (ps : PeekStream α C) (depth : Nat) : Nat :=
  (peekFill ps depth).2.2

/-- `PeekStream::peek_n_mut`: asserts `depth <= CAPACITY` (else panic with
the source's message), runs the pull loop, and on success returns
`Some(&mut buffer[Modular::add(start, depth)])` — the slot the code
actually reads (note: the code adds `depth`, not `depth - 1`).  The
returned slot content is `Option α`; `some (none)` means the code
returned a reference into a still-uninitialized slot.  An early `None`
from the loop is `ok (none, _)`; a failed assert is `error`. -/
def PeekStream.peek_n_mut (ps : PeekStream α C) (depth : Nat) :
    Except String (Option (Option α) × PeekStream α C) :=
  if depth ≤ C then
    match peekFill ps depth with
    | (ps', true, _) =>
      .ok (some (ps'.buffer.getD (Modular.add C ps'.start depth) none), ps')
    | (ps', false, _) => .ok (none, ps')
  else
    .error "`depth` out of range `0..CAPACITY`"

/-- `PeekStream::peek_n`: `peek_n_mut` with the result reborrowed shared
(`.map(|item| &*item)`), identical on slot contents. -/
def PeekStream.peek_n (ps : PeekStream α C) (depth : Nat) :
    Except String (Option (Option α) × PeekStream α C) :=
  ps.peek_n_mut depth

/-- `NonZeroUsize::new`: `none` exactly on zero. -/
def NonZeroUsize.new (n : Nat) : Option Nat :=
  if n = 0 then none else some n

/-- The public call surface of `peek_n(depth)`: `depth` arrives as a
`NonZeroUsize`, so expressing the call with `depth = 0` aborts while the
argument is being constructed (as in `NonZeroUsize::new(d).expect(…)`),
before `peek_n` itself runs its `depth <= CAPACITY` assert. -/
def PeekStream.peek_n_call (ps : PeekStream α C) (depth : Nat) :
    Except String (Option (Option α) × PeekStream α C) :=
  match NonZeroUsize.new depth with
  | none => .error "`NonZeroUsize::new` failed: `depth` must be nonzero"
  | some d => ps.peek_n d

/-- `PeekStream::peek_1`: `peek_n` with `depth = 1`. -/
def PeekStream.peek_1 (ps : PeekStream α C) :
    Except String (Option (Option α) × PeekStream α C) :=
  ps.peek_n 1

/-- `PeekStream::next_if`: peek one ahead (`peek_1`, early `None` if
absent), test the predicate against the peeked reference, and if it
holds consume via `self.next().await`, else return `None`.  The peeked
reference is whatever slot `peek_1` designates; if that slot is still
uninitialized the source dereferences uninitialized memory, surfaced
here as an explicit error. -/
def PeekStream.next_if (ps : PeekStream α C) (p : α → Bool) :
    Except String (Option α × PeekStream α C) :=
  match ps.peek_1 with
  | .error e => .error e
  | .ok (none, ps') => .ok (none, ps')
  | .ok (some slot, ps') =>
    match slot with
    | none => .error "undefined behavior: predicate tested against uninitialized buffer slot"
    | some v =>
      if p v then
        let r := ps'.next
        .ok (r.1, r.2)
      else
        .ok (none, ps')

/-- `PinHandleMut` from `handles.rs`, generic over the adapter state `σ`
it exclusively borrows: the pinned operation state plus the optional
one-shot drop action (`Option<RunOnce<dyn Runnable>>`). -/
structure PinHandleMut (σ : Type) where
  state : σ
  on_drop : Option (σ → σ)

/-- `PinHandleMut::drop`: `self.on_drop.take().map(RunOnce::run)` — takes
the drop action out (so it can never run again) and runs it, if one was
supplied, on the borrowed adapter state. -/
def PinHandleMut.drop (h : PinHandleMut σ) : PinHandleMut σ :=
  match h.on_drop with
  | none => { h with on_drop := none }
  | some f => { state := f h.state, on_drop := none }

/-- `FusedBlockingMut<P, A, B>` from `fused_blocking_mut.rs`: the wrapped
synchronous projection and the pending-input slot
(`param: UnsafeCell<Option<A>>`). -/
structure FusedBlockingMut (α β : Type) where
  projection : α → β
  param : Option α

/-- `from_blocking_mut(projection)`: adapter with an empty slot. -/
def from_blocking_mut (f : α → β) : FusedBlockingMut α β :=
  { projection := f, param := none }

/-- `ClearFusedBlockingMut::run`: the handle's drop action — take the
pending input out of the slot and drop it. -/
def ClearFusedBlockingMut.run (s : FusedBlockingMut α β) : FusedBlockingMut α β :=
  { s with param := none }

/-- `FusedBlockingMut::project`: store the input in the slot and return a
`PinHandleMut` over the adapter with `Some(RunOnce(ClearFusedBlockingMut))`
as drop action. -/
def FusedBlockingMut.project (s : FusedBlockingMut α β) (value : α) :
    PinHandleMut (FusedBlockingMut α β) :=
  { state := { s with param := some value },
    on_drop := some ClearFusedBlockingMut.run }

/-- `FusedBlockingMutFuture::poll`: take the pending input
(`.expect` panics if the slot is already empty), apply the projection
and resolve `Poll::Ready` immediately. -/
def FusedBlockingMutFuture.poll (s : FusedBlockingMut α β) :
    Except String (Poll β × FusedBlockingMut α β) :=
  match s.param with
  | none => .error "`FusedBlockingMutFuture::poll` called twice"
  | some p => .ok (Poll.ready (s.projection p), { s with param := none })

/-- `FusedRefBlockingMut<P, A, B>` from `fused_ref_blocking_mut.rs`: a
`FnMut(&A) -> B` projection and the pending `Option<NonNull<A>>` slot,
modelled by the pointee value the reference designates. -/
structure FusedRefBlockingMut (α β : Type) where
  projection : α → β
  param : Option α

/-- `from_ref_blocking_mut(projection)`. -/
def from_ref_blocking_mut (f : α → β) : FusedRefBlockingMut α β :=
  { projection := f, param := none }

/-- `FusedRefBlockingMut::project`: store the input reference in the slot;
the handle carries no drop action (`PinHandleMut::new(…, None)`). -/
def FusedRefBlockingMut.project (s : FusedRefBlockingMut α β) (value : α) :
    PinHandleMut (FusedRefBlockingMut α β) :=
  { state := { s with param := some value }, on_drop := none }

/-- `FusedRefBlockingFutureMut::poll`: take the stored reference
(`.expect` panics if already taken), read through it and resolve
`Poll::Ready` immediately. -/
def FusedRefBlockingFutureMut.poll (s : FusedRefBlockingMut α β) :
    Except String (Poll β × FusedRefBlockingMut α β) :=
  match s.param with
  | none => .error "`RefBlockingFutureMut::poll` called twice"
  | some p => .ok (Poll.ready (s.projection p), { s with param := none })

/-- `FusedMutBlockingMut<P, A, B>` from `fused_mut_blocking_mut.rs`: a
`FnMut(&mut A) -> B` projection — modelled as producing the output
together with the updated pointee — and the pending `Option<NonNull<A>>`
slot, modelled by the pointee value. -/
structure FusedMutBlockingMut (α β : Type) where
  projection : α → β × α
  param : Option α

/-- `from_mut_blocking_mut(projection)`. -/
def from_mut_blocking_mut (f : α → β × α) : FusedMutBlockingMut α β :=
  { projection := f, param := none }

/-- `FusedMutBlockingMut::project`: store the input reference; no drop
action on the handle. -/
def FusedMutBlockingMut.project (s : FusedMutBlockingMut α β) (value : α) :
    PinHandleMut (FusedMutBlockingMut α β) :=
  { state := { s with param := some value }, on_drop := none }

/-- `FusedMutBlockingFutureMut::poll`: take the stored reference
(`.expect` panics if already taken), apply the projection through it and
resolve `Poll::Ready` immediately; the ready value carries the output
and the (possibly mutated) pointee. -/
def FusedMutBlockingFutureMut.poll (s : FusedMutBlockingMut α β) :
    Except String (Poll (β × α) × FusedMutBlockingMut α β) :=
  match s.param with
  | none => .error "`MutBlockingFutureMut::poll` called twice"
  | some p => .ok (Poll.ready (s.projection p), { s with param := none })

/-- An inner asynchronous operation `F: Future<Output = B>` handed to the
async adapter, modelled as a countdown state machine: it answers
`Poll::Pending` `pendings` times before resolving with `result`. -/
structure InnerFuture (β : Type) where
  pendings : Nat
  result : β

/-- One poll of the inner future. -/
def InnerFuture.poll (f : InnerFuture β) : Poll β × InnerFuture β :=
  match f.pendings with
  | 0 => (Poll.ready f.result, f)
  | n + 1 => (Poll.pending, { f with pendings := n })

/-- `AsyncMut<P, A, F, B>` from `async_mut.rs`: the wrapped
`FnMut(A) -> F` projection and the `future: UnsafeCell<Option<F>>`
slot. -/
structure AsyncMut (α β : Type) where
  projection : α → InnerFuture β
  future : Option (InnerFuture β)

/-- `from_async_mut(projection)`: adapter with an empty future slot. -/
def from_async_mut (f : α → InnerFuture β) : AsyncMut α β :=
  { projection := f, future := none }

/-- `ClearAsyncMut::run`: the handle's drop action — set the future slot
back to `None`. -/
def ClearAsyncMut.run (s : AsyncMut α β) : AsyncMut α β :=
  { s with future := none }

/-- `AsyncMut::project`: produce the inner future from the input, store
it in the slot, and return a handle with `Some(RunOnce(ClearAsyncMut))`
as drop action. -/
def AsyncMut.project (s : AsyncMut α β) (value : α) :
    PinHandleMut (AsyncMut α β) :=
  { state := { s with future := some (s.projection value) },
    on_drop := some ClearAsyncMut.run }

/-- `AsyncMutFuture::poll`: forward the visit to the inner future in the
slot (`.expect("unreachable")` if the slot is empty). -/
def AsyncMutFuture.poll (s : AsyncMut α β) :
    Except String (Poll β × AsyncMut α β) :=
  match s.future with
  | none => .error "unreachable"
  | some f =>
    let r := f.poll
    .ok (r.1, { s with future := some r.2 })

/-- Driving a handle over an `AsyncMut` to completion: poll repeatedly
(with a fuel bound) until `Poll::Ready`. -/
def driveToCompletion : Nat → AsyncMut α β → Except String (Option β × AsyncMut α β)
  | 0, s => .ok (none, s)
  | fuel + 1, s =>
    match AsyncMutFuture.poll s with
    | .error e => .error e
    | .ok (Poll.ready b, s') => .ok (some b, s')
    | .ok (Poll.pending, s') => driveToCompletion fuel s'

/-- A tiny concrete peek stream used to instantiate the theorems below:
capacity 1, empty buffer, source holding the single item `5`. -/
def wBefore : PeekStream Nat 1 :=
  ⟨⟨false, (0, some 0), [5]⟩, [none], 0, 0⟩

/-- The state of `wBefore` after `peek_n_mut 1`: item `5` buffered, the
source drained. -/
def wAfter : PeekStream Nat 1 :=
  ⟨⟨false, (0, some 0), []⟩, [some 5], 0, 1⟩

/-- A concrete peek stream whose source reports bounds `(2, Some 5)`,
with one item buffered. -/
def wHint : PeekStream Nat 1 :=
  ⟨⟨false, (2, some 5), [9]⟩, [some 4], 0, 1⟩

/-- Helper: `List.set` at one index leaves `getD` at a different index
unchanged. -/
theorem list_getD_set_ne {γ : Type} (l : List γ) (i j : Nat) (v d : γ)
    (h : i ≠ j) : (l.set i v).getD j d = l.getD j d := by
  simp [List.getD_eq_getElem?_getD, List.getElem?_set_ne h]

/-- Helper: `List.set` at an in-bounds index makes `getD` there return the
new value. -/
theorem list_getD_set_self {γ : Type} (l : List γ) (i : Nat) (v d : γ)
    (h : i < l.length) : (l.set i v).getD i d = v := by
  simp [List.getD_eq_getElem?_getD, List.getElem?_set_self, h]

/-- Helper: adding distinct offsets below the modulus to a common base
gives distinct residues. -/
theorem add_mod_inj_of_lt {C s i j : Nat} (hi : i < C) (hj : j < C)
    (h : (s + i) % C = (s + j) % C) : i = j := by
  rcases Nat.le_total i j with hle | hle
  · have hd : C ∣ s + j - (s + i) := (Nat.modEq_iff_dvd' (by omega)).1 h
    have he : s + j - (s + i) = j - i := by omega
    rw [he] at hd
    have := Nat.eq_zero_of_dvd_of_lt hd
    omega
  · have hd : C ∣ s + i - (s + j) := (Nat.modEq_iff_dvd' (by omega)).1 h.symm
    have he : s + i - (s + j) = i - j := by omega
    rw [he] at hd
    have := Nat.eq_zero_of_dvd_of_lt hd
    omega

/-- Helper: `Modular::add` with an in-range right-hand side is plain
modular addition. -/
theorem Modular.add_eq_of_lt {C s r : Nat} (h : r < C) :
    Modular.add C s r = (s + r) % C := by
  unfold Modular.add
  rw [Nat.mod_eq_of_lt h]

/-- Helper: `Modular::add` by one is plain modular increment whenever the
modulus is positive. -/
theorem Modular.add_one {C s : Nat} (h : 0 < C) :
    Modular.add C s 1 = (s + 1) % C := by
  rcases Nat.lt_or_ge 1 C with h1 | h1
  · exact Modular.add_eq_of_lt h1
  · have hC : C = 1 := by omega
    subst hC
    simp [Modular.add, Nat.mod_one]

/-- Helper: driving an `AsyncMut` whose slot holds an inner future with
`n` pendings left, with fuel `n + 1`, resolves with the inner result. -/
theorem driveToCompletion_ready {α β : Type} (proj : α → InnerFuture β) :
    ∀ (n : Nat) (b : β),
      driveToCompletion (n + 1) { projection := proj, future := some ⟨n, b⟩ }
        = .ok (some b, { projection := proj, future := some ⟨0, b⟩ }) := by
  intro n
  induction n with
  | zero => intro b; rfl
  | succ m ih => intro b; exact ih b

/-- C2: for every synchronous function lifted by `from_blocking_mut`,
`from_ref_blocking_mut` or `from_mut_blocking_mut` and every input `x`,
the first suspend-point visit of the started transformation resolves
with `Poll::Ready` carrying exactly the function's value at `x` (and the
emptied slot): the blocking adapters never suspend. -/
theorem blocking_adapters_resolve_first_poll {α β : Type}
    (f : α → β) (g : α → β × α) (x : α) :
    FusedBlockingMutFuture.poll ((from_blocking_mut f).project x).state
      = .ok (Poll.ready (f x), { projection := f, param := none }) ∧
    FusedRefBlockingFutureMut.poll ((from_ref_blocking_mut f).project x).state
      = .ok (Poll.ready (f x), { projection := f, param := none }) ∧
    FusedMutBlockingFutureMut.poll ((from_mut_blocking_mut g).project x).state
      = .ok (Poll.ready (g x), { projection := g, param := none }) :=
  ⟨rfl, rfl, rfl⟩

/-- C4: for every blocking adapter variant, polling the produced future a
second time after the first poll emptied the pending-input slot is a
fatal contract violation: it aborts with the `called twice` panic
instead of returning a value. -/
theorem blocking_adapters_second_poll_panics {α β : Type}
    (f : α → β) (g : α → β × α) (x : α) :
    ((FusedBlockingMutFuture.poll ((from_blocking_mut f).project x).state).bind
        fun r => FusedBlockingMutFuture.poll r.2)
      = .error "`FusedBlockingMutFuture::poll` called twice" ∧
    ((FusedRefBlockingFutureMut.poll ((from_ref_blocking_mut f).project x).state).bind
        fun r => FusedRefBlockingFutureMut.poll r.2)
      = .error "`RefBlockingFutureMut::poll` called twice" ∧
    ((FusedMutBlockingFutureMut.poll ((from_mut_blocking_mut g).project x).state).bind
        fun r => FusedMutBlockingFutureMut.poll r.2)
      = .error "`MutBlockingFutureMut::poll` called twice" :=
  ⟨rfl, rfl, rfl⟩

/-- C3: dropping a handle runs its cleanup action at most once and only
if one was supplied (the action is taken out before it runs, so a second
destruction path finds it gone), and after start-then-drop-unpolled the
adapter's pending slot is clear, so starting a new transformation on the
same adapter succeeds and yields the result for the new input — for the
by-value and by-reference blocking adapters and for the async adapter
alike. -/
theorem reuse_after_cancel {σ α β : Type} (st : σ) (cleanup : σ → σ)
    (f : α → β) (p : α → InnerFuture β) (x₁ x₂ y₁ y₂ : α) :
    (PinHandleMut.mk st none).drop = PinHandleMut.mk st none ∧
    (PinHandleMut.mk st (some cleanup)).drop = PinHandleMut.mk (cleanup st) none ∧
    ((PinHandleMut.mk st (some cleanup)).drop).drop = PinHandleMut.mk (cleanup st) none ∧
    (((from_blocking_mut f).project x₁).drop).state
      = { projection := f, param := none } ∧
    FusedBlockingMutFuture.poll
        (((((from_blocking_mut f).project x₁).drop).state).project x₂).state
      = .ok (Poll.ready (f x₂), { projection := f, param := none }) ∧
    FusedRefBlockingFutureMut.poll
        (((((from_ref_blocking_mut f).project x₁).drop).state).project x₂).state
      = .ok (Poll.ready (f x₂), { projection := f, param := none }) ∧
    (((from_async_mut p).project y₁).drop).state
      = { projection := p, future := none } ∧
    driveToCompletion ((p y₂).pendings + 1)
        (((((from_async_mut p).project y₁).drop).state).project y₂).state
      = .ok (some (p y₂).result, { projection := p, future := some ⟨0, (p y₂).result⟩ }) :=
  ⟨rfl, rfl, rfl, rfl, rfl, rfl, rfl,
    driveToCompletion_ready p (p y₂).pendings (p y₂).result⟩

/-- Helper: unfolding of the pull loop at budget zero (loop guard
`len ≥ depth` already satisfied). -/
theorem peekFillGo_zero {α : Type} {C : Nat} (depth : Nat) (ps : PeekStream α C) :
    peekFillGo depth 0 ps = (ps, true, 0) :=
  rfl

/-- Helper: unfolding of the pull loop when the source is already
terminated — early `None` exit, no pull. -/
theorem peekFillGo_succ_term {α : Type} {C : Nat} {depth k : Nat}
    {ps : PeekStream α C} (h : ps.input.is_terminated = true) :
    peekFillGo depth (k + 1) ps = (ps, false, 0) := by
  simp [peekFillGo, h]

/-- Helper: unfolding of the pull loop when the pull comes back empty —
early `None` exit after one pull, source now terminated. -/
theorem peekFillGo_succ_nil {α : Type} {C : Nat} {depth k : Nat}
    {ps : PeekStream α C} (h : ps.input.is_terminated = false)
    (hitems : ps.input.items = []) :
    peekFillGo depth (k + 1) ps
      = ({ ps with input := { ps.input with terminated := true, items := [] } },
          false, 1) := by
  simp [peekFillGo, h, Source.next, hitems]

/-- Helper: unfolding of the pull loop on a successful pull, stated
componentwise: the final state and the completion flag are those of the
loop continued on the pushed state, and one more pull is counted. -/
theorem peekFillGo_succ_cons {α : Type} {C : Nat} {depth k : Nat}
    {ps : PeekStream α C} {x : α} {xs : List α}
    (h : ps.input.is_terminated = false) (hitems : ps.input.items = x :: xs) :
    (peekFillGo depth (k + 1) ps).1
        = (peekFillGo depth k (peekFillPush ps x { ps.input with items := xs })).1 ∧
      (peekFillGo depth (k + 1) ps).2.1
        = (peekFillGo depth k (peekFillPush ps x { ps.input with items := xs })).2.1 ∧
      (peekFillGo depth (k + 1) ps).2.2
        = (peekFillGo depth k (peekFillPush ps x { ps.input with items := xs })).2.2 + 1 := by
  refine ⟨?_, ?_, ?_⟩ <;> simp [peekFillGo, h, Source.next, hitems]

/-- Helper: invariants of the `peek_n_mut` pull loop, entered with its
iteration budget `k = depth - len`: `start` is untouched, the buffer
keeps its length, `len` only grows (up to `depth`), at most `k` pulls
happen, a `true` exit means `len` reached `depth`, a `false` exit means
`len` is still short and the source is terminated, the `len` slots live
on entry are untouched, and every slot that became live during the loop
is initialized. -/
theorem peekFillGo_props {α : Type} {C : Nat} (depth : Nat) :
    ∀ (k : Nat) (ps : PeekStream α C),
      ps.len + k = depth → depth ≤ C → ps.start < C → ps.buffer.length = C →
      (peekFillGo depth k ps).1.start = ps.start ∧
      (peekFillGo depth k ps).1.buffer.length = C ∧
      ps.len ≤ (peekFillGo depth k ps).1.len ∧
      (peekFillGo depth k ps).1.len ≤ depth ∧
      (peekFillGo depth k ps).2.2 ≤ k ∧
      ((peekFillGo depth k ps).2.1 = true → (peekFillGo depth k ps).1.len = depth) ∧
      ((peekFillGo depth k ps).2.1 = false →
        (peekFillGo depth k ps).1.len < depth ∧
        (peekFillGo depth k ps).1.input.terminated = true) ∧
      (∀ i, i < ps.len →
        (peekFillGo depth k ps).1.buffer.getD ((ps.start + i) % C) none
          = ps.buffer.getD ((ps.start + i) % C) none) ∧
      (∀ i, ps.len ≤ i → i < (peekFillGo depth k ps).1.len →
        ((peekFillGo depth k ps).1.buffer.getD ((ps.start + i) % C) none).isSome) := by
  intro k
  induction k with
  | zero =>
    intro ps hinv hdC hs hb
    rw [peekFillGo_zero]
    exact ⟨rfl, hb, Nat.le_refl _, show ps.len ≤ depth by omega, Nat.le_refl _,
      fun _ => show ps.len = depth by omega,
      fun h => Bool.noConfusion h,
      fun i _ => rfl,
      fun i h1 h2 => absurd (show i < ps.len from h2) (by omega)⟩
  | succ k ih =>
    intro ps hinv hdC hs hb
    by_cases hterm : ps.input.is_terminated = true
    · rw [peekFillGo_succ_term hterm]
      exact ⟨rfl, hb, Nat.le_refl _, show ps.len ≤ depth by omega, Nat.zero_le _,
        fun h => Bool.noConfusion h,
        fun _ => ⟨show ps.len < depth by omega, hterm⟩,
        fun i _ => rfl,
        fun i h1 h2 => absurd (show i < ps.len from h2) (by omega)⟩
    · have hterm' : ps.input.is_terminated = false := by
        revert hterm
        cases ps.input.is_terminated <;> simp
      have hlenC : ps.len < C := by omega
      have hmod : Modular.add C ps.start ps.len = (ps.start + ps.len) % C :=
        Modular.add_eq_of_lt hlenC
      cases hitems : ps.input.items with
      | nil =>
        rw [peekFillGo_succ_nil hterm' hitems]
        exact ⟨rfl, hb, Nat.le_refl _, show ps.len ≤ depth by omega,
          show (1 : Nat) ≤ k + 1 by omega,
          fun h => Bool.noConfusion h,
          fun _ => ⟨show ps.len < depth by omega, rfl⟩,
          fun i _ => rfl,
          fun i h1 h2 => absurd (show i < ps.len from h2) (by omega)⟩
      | cons x xs =>
        have hwrite : (ps.start + ps.len) % C < ps.buffer.length := by
          rw [hb]
          exact Nat.mod_lt _ (by omega)
        obtain ⟨hc1, hc2, hc3⟩ :=
          @peekFillGo_succ_cons α C depth k ps x xs hterm' hitems
        rw [hc1, hc2, hc3]
        obtain ⟨ihstart, ihlen, ihmono, ihub, ihpulls, ihtrue, ihfalse, ihframe, ihnew⟩ :=
          ih (peekFillPush ps x { ps.input with items := xs })
            (show ps.len + 1 + k = depth by omega) hdC
            (show ps.start < C from hs)
            (show (ps.buffer.set (Modular.add C ps.start ps.len) (some x)).length = C by
              rw [List.length_set]; exact hb)
        refine ⟨show _ = ps.start from ihstart, ihlen, Nat.le_of_succ_le ihmono, ihub,
          Nat.succ_le_succ ihpulls, ihtrue, ihfalse, ?_, ?_⟩
        · intro i hi
          have hcast :
              (peekFillGo depth k
                  (peekFillPush ps x { ps.input with items := xs })).1.buffer.getD
                  ((ps.start + i) % C) none
                = (ps.buffer.set (Modular.add C ps.start ps.len) (some x)).getD
                  ((ps.start + i) % C) none :=
            ihframe i (show i < ps.len + 1 by omega)
          rw [hcast, hmod]
          apply list_getD_set_ne
          intro hcontra
          have : ps.len = i := add_mod_inj_of_lt hlenC (by omega) hcontra
          omega
        · intro i h1 h2
          rcases Nat.eq_or_lt_of_le h1 with heq | hlt
          · subst heq
            have hcast :
                (peekFillGo depth k
                    (peekFillPush ps x { ps.input with items := xs })).1.buffer.getD
                    ((ps.start + ps.len) % C) none
                  = (ps.buffer.set (Modular.add C ps.start ps.len) (some x)).getD
                    ((ps.start + ps.len) % C) none :=
              ihframe ps.len (show ps.len < ps.len + 1 by omega)
            rw [hcast, hmod, list_getD_set_self _ _ _ _ hwrite]
            rfl
          · exact ihnew i (show ps.len + 1 ≤ i by omega) h2

/-- C6: one step of direct consumption (`poll_next`) on a `PeekStream`:
when `count > 0` it returns the item buffered at `start`, advances
`start` by one modulo `CAPACITY` and decrements the count; when
`count = 0` it delegates directly to the underlying source's own
advance operation, leaving buffer, `start` and count untouched. -/
theorem poll_next_spec {α : Type} {C : Nat} (ps : PeekStream α C)
    (hs : ps.start < C) :
    (0 < ps.len →
      ps.poll_next
        = (Poll.ready (ps.buffer.getD ps.start none),
            { ps with start := (ps.start + 1) % C, len := ps.len - 1 })) ∧
    (ps.len = 0 →
      ps.poll_next
        = (Poll.ready (ps.input.next).1, { ps with input := (ps.input.next).2 })) := by
  constructor
  · intro h
    simp only [PeekStream.poll_next]
    rw [if_pos h, Modular.add_one (show 0 < C by omega)]
  · intro h
    have hno : ¬ 0 < ps.len := by omega
    simp only [PeekStream.poll_next]
    rw [if_neg hno]

/-- C10: `peek_n_mut` never removes buffered items: whenever it returns
without panicking it leaves `start` unchanged and never decreases the
count, every slot live on entry keeps its item, every slot that became
live holds a freshly pulled item, and when it answers "no item" the
source concluded before `depth` items were available, with everything
pulled so far still buffered. -/
theorem peek_n_mut_frame {α : Type} {C : Nat} (ps : PeekStream α C)
    (depth : Nat) (r : Option (Option α)) (ps' : PeekStream α C)
    (hs : ps.start < C) (hb : ps.buffer.length = C)
    (h : ps.peek_n_mut depth = .ok (r, ps')) :
    ps'.start = ps.start ∧
    ps.len ≤ ps'.len ∧
    ps'.buffer.length = C ∧
    (∀ i, i < ps.len →
      ps'.buffer.getD ((ps.start + i) % C) none
        = ps.buffer.getD ((ps.start + i) % C) none) ∧
    (∀ i, ps.len ≤ i → i < ps'.len →
      (ps'.buffer.getD ((ps.start + i) % C) none).isSome) ∧
    (r = none → ps'.input.terminated = true ∧ ps'.len < depth) := by
  unfold PeekStream.peek_n_mut peekFill at h
  by_cases hdC : depth ≤ C
  · rw [if_pos hdC] at h
    by_cases hlen : ps.len ≤ depth
    · rcases hG : peekFillGo depth (depth - ps.len) ps with ⟨ps1, ok, n⟩
      obtain ⟨pstart, pbuf, pmono, pub, ppulls, ptrue, pfalse, pframe, pnew⟩ :=
        peekFillGo_props depth (depth - ps.len) ps (by omega) hdC hs hb
      rw [hG] at h pstart pbuf pmono pub ptrue pfalse pframe pnew
      cases ok
      · simp only [Except.ok.injEq, Prod.mk.injEq] at h
        obtain ⟨hr, hps⟩ := h
        subst hr
        subst hps
        exact ⟨pstart, pmono, pbuf, pframe, pnew,
          fun _ => ⟨(pfalse rfl).2, (pfalse rfl).1⟩⟩
      · simp only [Except.ok.injEq, Prod.mk.injEq] at h
        obtain ⟨hr, hps⟩ := h
        subst hr
        subst hps
        exact ⟨pstart, pmono, pbuf, pframe, pnew,
          fun hc => Option.noConfusion hc⟩
    · have h0 : depth - ps.len = 0 := by omega
      rw [h0, peekFillGo_zero] at h
      simp only [Except.ok.injEq, Prod.mk.injEq] at h
      obtain ⟨hr, hps⟩ := h
      subst hr
      subst hps
      exact ⟨rfl, Nat.le_refl _, hb, fun i _ => rfl,
        fun i h1 h2 => absurd (show i < ps.len from h2) (by omega),
        fun hc => Option.noConfusion hc⟩
  · rw [if_neg hdC] at h
    simp at h

/-- C7: `peek_n` is idempotent: after a completed first call (item or
"no item"), an immediate second call with the same `depth` and no
intervening consume returns the very same result and state, a repeat
call with the same or any smaller valid `depth` performs zero source
pulls, and the two same-`depth` calls together pull from the source at
most `depth` times. -/
theorem peek_n_idempotent {α : Type} {C : Nat} (ps : PeekStream α C)
    (depth : Nat) (r : Option (Option α)) (ps₁ : PeekStream α C)
    (hs : ps.start < C) (hb : ps.buffer.length = C)
    (hd1 : 1 ≤ depth) (hdC : depth ≤ C)
    (h : ps.peek_n depth = .ok (r, ps₁)) :
    ps₁.peek_n depth = .ok (r, ps₁) ∧
    ps.peekPulls depth + ps₁.peekPulls depth ≤ depth ∧
    (∀ d, 1 ≤ d → d ≤ depth → ps₁.peekPulls d = 0) := by
  unfold PeekStream.peek_n PeekStream.peek_n_mut peekFill at h
  rw [if_pos hdC] at h
  by_cases hlen : ps.len ≤ depth
  · rcases hG : peekFillGo depth (depth - ps.len) ps with ⟨ps1, ok, n⟩
    obtain ⟨pstart, pbuf, pmono, pub, ppulls, ptrue, pfalse, pframe, pnew⟩ :=
      peekFillGo_props depth (depth - ps.len) ps (by omega) hdC hs hb
    rw [hG] at h pstart pbuf pmono pub ppulls ptrue pfalse pframe pnew
    have e1 : ps.peekPulls depth = n := by
      unfold PeekStream.peekPulls peekFill
      rw [hG]
    have ppulls2 : n ≤ depth - ps.len := ppulls
    cases ok
    · simp only [Except.ok.injEq, Prod.mk.injEq] at h
      obtain ⟨hr, hps⟩ := h
      subst hr
      subst hps
      have hlt : ps1.len < depth := (pfalse rfl).1
      have hterm1 : ps1.input.terminated = true := (pfalse rfl).2
      have hpull0 : ∀ d, ps1.len < d → ps1.peekPulls d = 0 := by
        intro d hd
        have hm : d - ps1.len = (d - ps1.len - 1) + 1 := by omega
        unfold PeekStream.peekPulls peekFill
        rw [hm, peekFillGo_succ_term hterm1]
      refine ⟨?_, ?_, ?_⟩
      · unfold PeekStream.peek_n PeekStream.peek_n_mut peekFill
        rw [if_pos hdC]
        have hm : depth - ps1.len = (depth - ps1.len - 1) + 1 := by omega
        rw [hm, peekFillGo_succ_term hterm1]
      · rw [e1, hpull0 depth hlt]
        omega
      · intro d hd1' hdd
        by_cases hcmp : ps1.len < d
        · exact hpull0 d hcmp
        · have hz : d - ps1.len = 0 := by omega
          unfold PeekStream.peekPulls peekFill
          rw [hz, peekFillGo_zero]
    · simp only [Except.ok.injEq, Prod.mk.injEq] at h
      obtain ⟨hr, hps⟩ := h
      subst hr
      subst hps
      have hlen1 : ps1.len = depth := ptrue rfl
      have hpull0 : ∀ d, d ≤ depth → ps1.peekPulls d = 0 := by
        intro d hd
        have hz : d - ps1.len = 0 := by omega
        unfold PeekStream.peekPulls peekFill
        rw [hz, peekFillGo_zero]
      refine ⟨?_, ?_, ?_⟩
      · unfold PeekStream.peek_n PeekStream.peek_n_mut peekFill
        rw [if_pos hdC]
        have hz : depth - ps1.len = 0 := by omega
        rw [hz, peekFillGo_zero]
      · rw [e1, hpull0 depth (Nat.le_refl _)]
        omega
      · intro d _ hdd
        exact hpull0 d hdd
  · have h0 : depth - ps.len = 0 := by omega
    rw [h0, peekFillGo_zero] at h
    simp only [Except.ok.injEq, Prod.mk.injEq] at h
    obtain ⟨hr, hps⟩ := h
    subst hr
    subst hps
    have hpull0 : ∀ d, d ≤ depth → ps.peekPulls d = 0 := by
      intro d hd
      have hz : d - ps.len = 0 := by omega
      unfold PeekStream.peekPulls peekFill
      rw [hz, peekFillGo_zero]
    refine ⟨?_, ?_, ?_⟩
    · unfold PeekStream.peek_n PeekStream.peek_n_mut peekFill
      rw [if_pos hdC, h0, peekFillGo_zero]
    · rw [hpull0 depth (Nat.le_refl _)]
      omega
    · intro d _ hdd
      exact hpull0 d hdd

/-- C8: requesting `peek_n` with a depth outside `1..=CAPACITY` aborts as
a fatal contract violation instead of returning a value: depth `0`
cannot even be expressed (constructing the `NonZeroUsize` argument
aborts), and any depth above `CAPACITY` fails `peek_n_mut`'s assert. -/
theorem peek_n_out_of_range_panics {α : Type} {C : Nat} (ps : PeekStream α C) :
    ps.peek_n_call 0 = .error "`NonZeroUsize::new` failed: `depth` must be nonzero" ∧
    ps.peek_n_call (C + 1) = .error "`depth` out of range `0..CAPACITY`" ∧
    (∀ depth, depth = 0 ∨ C < depth →
      ∃ msg, ps.peek_n_call depth = .error msg) := by
  have hout : ∀ depth, C < depth →
      ps.peek_n_call depth = .error "`depth` out of range `0..CAPACITY`" := by
    intro depth hC
    unfold PeekStream.peek_n_call NonZeroUsize.new
    rw [if_neg (show ¬ depth = 0 by omega)]
    show ps.peek_n depth = _
    unfold PeekStream.peek_n PeekStream.peek_n_mut
    rw [if_neg (show ¬ depth ≤ C by omega)]
  refine ⟨rfl, hout (C + 1) (by omega), ?_⟩
  intro depth hcase
  rcases hcase with h0 | hC
  · subst h0
    exact ⟨_, rfl⟩
  · exact ⟨_, hout depth hC⟩

/-- C9 counterexample: a `PeekStream` whose source reports upper bound
`usize::MAX` with one item buffered.  The code's `checked_add` drops the
reported upper bound entirely (`None`), whereas the claimed saturating
arithmetic would report `usize::MAX`. -/
theorem size_hint_not_saturating :
    PeekStream.size_hint
        (⟨⟨false, (0, some usizeMax), []⟩, [some 7], 0, 1⟩ : PeekStream Nat 1)
      = .ok (1, none) ∧
    usizeSaturatingAdd usizeMax 1 = usizeMax ∧
    (none : Option Nat) ≠ some usizeMax := by
  refine ⟨?_, ?_, ?_⟩
  · show Except.ok ((0 : Nat) + 1, usizeCheckedAdd usizeMax 1)
      = Except.ok (1, (none : Option Nat))
    unfold usizeCheckedAdd
    rw [if_neg (show ¬ usizeMax + 1 ≤ usizeMax by omega)]
  · show min (usizeMax + 1) usizeMax = usizeMax
    omega
  · simp

/-- C9 amended: when the source's lower bound plus the buffered count
fits in `usize`, `size_hint` reports exactly that sum as the lower
bound, and the upper bound is the source's upper bound plus the count
when that also fits, is dropped (reported as absent via `checked_add`,
not saturated) when it overflows, and stays absent when the source
reports none; when the lower sum itself exceeds `usize::MAX`, the
source's unchecked addition is a fatal arithmetic-overflow error, not a
reported bound. -/
theorem size_hint_shifts_by_len {α : Type} {C : Nat} (ps : PeekStream α C) :
    (usizeMax < (ps.input.size_hint).1 + ps.len →
      ps.size_hint = .error "attempt to add with overflow") ∧
    ((ps.input.size_hint).1 + ps.len ≤ usizeMax →
      ((ps.input.size_hint).2 = none →
        ps.size_hint = .ok ((ps.input.size_hint).1 + ps.len, none)) ∧
      (∀ e, (ps.input.size_hint).2 = some e →
        (e + ps.len ≤ usizeMax →
          ps.size_hint
            = .ok ((ps.input.size_hint).1 + ps.len, some (e + ps.len))) ∧
        (usizeMax < e + ps.len →
          ps.size_hint = .ok ((ps.input.size_hint).1 + ps.len, none)))) := by
  have hdef : ps.size_hint
      = if (ps.input.size_hint).1 + ps.len ≤ usizeMax then
          .ok ((ps.input.size_hint).1 + ps.len,
            ((ps.input.size_hint).2).bind fun e => usizeCheckedAdd e ps.len)
        else .error "attempt to add with overflow" := rfl
  refine ⟨?_, ?_⟩
  · intro hgt
    rw [hdef, if_neg (show ¬ (ps.input.size_hint).1 + ps.len ≤ usizeMax by omega)]
  · intro hle
    constructor
    · intro hnone
      rw [hdef, if_pos hle, hnone]
      rfl
    · intro e he
      constructor
      · intro hle2
        rw [hdef, if_pos hle, he]
        show Except.ok ((ps.input.size_hint).1 + ps.len, usizeCheckedAdd e ps.len)
          = Except.ok ((ps.input.size_hint).1 + ps.len, some (e + ps.len))
        unfold usizeCheckedAdd
        rw [if_pos hle2]
      · intro hgt2
        rw [hdef, if_pos hle, he]
        show Except.ok ((ps.input.size_hint).1 + ps.len, usizeCheckedAdd e ps.len)
          = Except.ok ((ps.input.size_hint).1 + ps.len, (none : Option Nat))
        unfold usizeCheckedAdd
        rw [if_neg (show ¬ e + ps.len ≤ usizeMax by omega)]

/-- C1 evaluation at the failing input (`CAPACITY = 2`, empty buffer,
source `[1, 2, 3]`, `depth = 2`): the loop pulls `1` then `2` into slots
`0` and `1`, but the returned reference is the slot at
`Modular::add(start, depth) = (0 + 2 % 2) % 2 = 0`, i.e. item `1`,
whereas the item at the claimed index `(start + depth - 1) % CAPACITY = 1`
is `2`. -/
theorem peek_n_mut_reads_slot_start_plus_depth :
    (PeekStream.peek_n_mut
        (⟨⟨false, (3, some 3), [1, 2, 3]⟩, [none, none], 0, 0⟩ : PeekStream Nat 2) 2
      = .ok (some (some 1), ⟨⟨false, (3, some 3), [3]⟩, [some 1, some 2], 0, 2⟩)) ∧
    Modular.add 2 0 2 = 0 ∧
    (([some 1, some 2] : List (Option Nat)).getD ((0 + 2 - 1) % 2) none = some 2) ∧
    some (1 : Nat) ≠ some 2 :=
  ⟨rfl, rfl, rfl, by simp⟩

/-- C5 evaluation at a failing input: a `PeekStream` with two buffered
items `1` (at `start`) and `2`, as produced by a prior `peek_n(2)` on
source `[1, 2, 3]`.  `next_if (· == 2)` tests the predicate against the
slot at `(start + 1) % CAPACITY` — the second buffered item, `2` — and,
the test passing, consumes and returns the first item `1`, on which the
predicate is false. -/
theorem next_if_consumes_item_predicate_rejected :
    (PeekStream.next_if
        (⟨⟨false, (1, some 1), [3]⟩, [some 1, some 2], 0, 2⟩ : PeekStream Nat 2)
        (fun x => x == 2)
      = .ok (some 1, ⟨⟨false, (1, some 1), [3]⟩, [some 1, some 2], 1, 1⟩)) ∧
    (fun x => x == 2) (1 : Nat) = false :=
  ⟨rfl, rfl⟩

/-- Witness for the `poll_next` theorem: a stream with two buffered items
pops the item at `start`, and a stream with an empty buffer delegates to
its source. -/
theorem poll_next_spec_witness :
    ((0 : Nat) < 2 ∧ 0 < 2 ∧
      (⟨⟨false, (0, some 0), []⟩, [some 4, some 6], 0, 2⟩
          : PeekStream Nat 2).poll_next
        = (Poll.ready (some 4),
            ⟨⟨false, (0, some 0), []⟩, [some 4, some 6], 1, 1⟩)) ∧
    ((0 : Nat) = 0 ∧
      (⟨⟨false, (0, some 0), [9]⟩, [none, none], 0, 0⟩
          : PeekStream Nat 2).poll_next
        = (Poll.ready (some 9),
            ⟨⟨false, (0, some 0), []⟩, [none, none], 0, 0⟩)) :=
  ⟨⟨by decide, by decide,
      (poll_next_spec (⟨⟨false, (0, some 0), []⟩, [some 4, some 6], 0, 2⟩
          : PeekStream Nat 2) (by decide)).1 (by decide)⟩,
    rfl,
    (poll_next_spec (⟨⟨false, (0, some 0), [9]⟩, [none, none], 0, 0⟩
        : PeekStream Nat 2) (by decide)).2 rfl⟩

/-- Witness for the idempotence theorem at CAPACITY 1, depth 1, source
`[5]`: the first call buffers and returns `5`, the second call returns
the same item and state with zero pulls. -/
theorem peek_n_idempotent_witness :
    (wBefore.start < 1 ∧ wBefore.buffer.length = 1 ∧ 1 ≤ 1 ∧ 1 ≤ 1 ∧
      wBefore.peek_n 1 = .ok (some (some 5), wAfter)) ∧
    (wAfter.peek_n 1 = .ok (some (some 5), wAfter) ∧
      wBefore.peekPulls 1 + wAfter.peekPulls 1 ≤ 1 ∧
      (∀ d, 1 ≤ d → d ≤ 1 → wAfter.peekPulls d = 0)) :=
  ⟨⟨by decide, rfl, Nat.le_refl 1, Nat.le_refl 1, rfl⟩,
    peek_n_idempotent wBefore 1 (some (some 5)) wAfter (by decide) rfl
      (Nat.le_refl 1) (Nat.le_refl 1) rfl⟩

/-- Witness for the frame theorem at CAPACITY 1, depth 1, source `[5]`. -/
theorem peek_n_mut_frame_witness :
    (wBefore.start < 1 ∧ wBefore.buffer.length = 1 ∧
      wBefore.peek_n_mut 1 = .ok (some (some 5), wAfter)) ∧
    (wAfter.start = wBefore.start ∧
      wBefore.len ≤ wAfter.len ∧
      wAfter.buffer.length = 1 ∧
      (∀ i, i < wBefore.len →
        wAfter.buffer.getD ((wBefore.start + i) % 1) none
          = wBefore.buffer.getD ((wBefore.start + i) % 1) none) ∧
      (∀ i, wBefore.len ≤ i → i < wAfter.len →
        (wAfter.buffer.getD ((wBefore.start + i) % 1) none).isSome) ∧
      (some (some 5) = none → wAfter.input.terminated = true ∧ wAfter.len < 1)) :=
  ⟨⟨by decide, rfl, rfl⟩,
    peek_n_mut_frame wBefore 1 (some (some 5)) wAfter (by decide) rfl rfl⟩

/-- Witness for the out-of-range theorem: at CAPACITY 2, both depth 0
and depth 3 abort. -/
theorem peek_n_out_of_range_panics_witness :
    ((0 : Nat) = 0 ∨ 2 < 0) ∧
    (∃ msg, (⟨⟨false, (0, some 0), []⟩, [none, none], 0, 0⟩
        : PeekStream Nat 2).peek_n_call 0 = .error msg) ∧
    ((3 : Nat) = 0 ∨ 2 < 3) ∧
    (∃ msg, (⟨⟨false, (0, some 0), []⟩, [none, none], 0, 0⟩
        : PeekStream Nat 2).peek_n_call 3 = .error msg) :=
  ⟨Or.inl rfl,
    (peek_n_out_of_range_panics
        (⟨⟨false, (0, some 0), []⟩, [none, none], 0, 0⟩
          : PeekStream Nat 2)).2.2 0 (Or.inl rfl),
    Or.inr (by decide),
    (peek_n_out_of_range_panics
        (⟨⟨false, (0, some 0), []⟩, [none, none], 0, 0⟩
          : PeekStream Nat 2)).2.2 3 (Or.inr (by decide))⟩

/-- Witness for the amended size-hint theorem: source bounds `(2, Some 5)`
with one buffered item report as `Ok (3, Some 6)`. -/
theorem size_hint_shifts_by_len_witness :
    ((wHint.input.size_hint).1 + wHint.len ≤ usizeMax ∧
      (wHint.input.size_hint).2 = some 5 ∧ 5 + wHint.len ≤ usizeMax) ∧
    wHint.size_hint = .ok (3, some 6) :=
  ⟨⟨by decide, rfl, by decide⟩,
    (((size_hint_shifts_by_len wHint).2 (by decide)).2 5 rfl).1 (by decide)⟩
